import Mathlib

/-!
A shallow embedding of the spk package repository layer
(crates/spk-storage/src/storage/spfs.rs and
crates/spk-schema/crates/foundation/src/ident_component/component_spec.rs),
together with proofs about its documented behaviour.

Pure data and control flow are translated directly from the source.  Types
and helpers that live outside the provided sources (identifier types, the
version type, tag specs, the cache policy enum, the spfs CAS interface) are
modelled from the specification and are marked as such in their doc
comments.  Effectful CAS operations are passed in as explicit function
arguments so that every definition stays executable.
-/

namespace Spk

deriving instance DecidableEq for Except

/-- Modelled from the spec: a version is an ordered tuple of numeric parts
plus markers; `plusEpsilon` mirrors the `plus_epsilon` flag of
`VersionParts`.  Trailing zeros are semantically insignificant. -/
structure VersionParts where
  parts : List Nat
  plusEpsilon : Bool
deriving DecidableEq, Repr

/-- Modelled from the spec: strip the trailing zeros from a version's parts
(`VersionParts::normalize`; the implementation is outside the provided
sources).  The `plus_epsilon` marker is preserved. -/
def VersionParts.normalize (v : VersionParts) : VersionParts :=
  { parts := (v.parts.reverse.dropWhile (fun p => p = 0)).reverse
    plusEpsilon := v.plusEpsilon }

/-- Modelled from the spec: a version is numeric parts plus optional
pre/post release markers.  The markers are opaque to the repository layer
and are carried as plain strings here. -/
structure Version where
  parts : VersionParts
  pre : String
  post : String
deriving DecidableEq, Repr

/-- Modelled from the spec: versions are ordered by their numeric parts
with trailing-zero padding treated as equal (`1.0 == 1.0.0`).  Missing
parts compare as zero.  Pre/post markers are not needed for the metadata
versions compared here. -/
def versionPartsLt : List Nat → List Nat → Bool
  | [], [] => false
  | [], y :: ys => if 0 < y then true else versionPartsLt [] ys
  | _ :: _, [] => false
  | x :: xs, y :: ys => if x < y then true else if x = y then versionPartsLt xs ys else false

/-- Modelled from the spec: strict order on versions (numeric parts only). -/
def Version.lt (a b : Version) : Bool :=
  versionPartsLt a.parts.parts b.parts.parts

/-- Modelled from the spec: a build key is an opaque token, the sentinel
`src`, or an `embedded[...]` reference (payload kept opaque). -/
inductive Build where
  | source
  | embedded (payload : String)
  | buildId (key : String)
deriving DecidableEq, Repr

/-- `Build::is_embedded`, modelled from the spec's build-key taxonomy. -/
def Build.isEmbedded : Build → Bool
  | .embedded _ => true
  | _ => false

/-- Modelled from the spec: a version identifier is a package name plus a
version. -/
structure VersionIdent where
  name : String
  version : Version
deriving DecidableEq, Repr

/-- Modelled from the spec: a build identifier is a package name, version
and build key. -/
structure BuildIdent where
  name : String
  version : Version
  build : Build
deriving DecidableEq, Repr

/-- Modelled from the spec: an "any" identifier is a name and version plus
an optional build. -/
structure AnyIdent where
  name : String
  version : Version
  build : Option Build
deriving DecidableEq, Repr

/-- `BuildIdent::to_any`, modelled from the spec's identifier hierarchy. -/
def BuildIdent.toAny (b : BuildIdent) : AnyIdent :=
  { name := b.name, version := b.version, build := some b.build }

/-- `VersionIdent::to_any(None)`, modelled from the spec's identifier
hierarchy. -/
def VersionIdent.toAny (v : VersionIdent) : AnyIdent :=
  { name := v.name, version := v.version, build := none }

/-- `VersionIdent::to_build`, modelled from the spec. -/
def VersionIdent.toBuild (v : VersionIdent) (b : Build) : BuildIdent :=
  { name := v.name, version := v.version, build := b }

/-- `VersionIdent::with_version` as used in `get_concrete_package_builds`:
replace the version wholesale. -/
def VersionIdent.withVersion (v : VersionIdent) (ver : Version) : VersionIdent :=
  { v with version := ver }

/-- Modelled from the spec: render a version as a single tag path segment
(the version-as-segments step of the tag-path encoder; the `TagPath`
implementation is outside the provided sources). -/
def versionSeg (v : Version) : String :=
  String.intercalate "." (v.parts.parts.map toString)

/-- Modelled from the spec: render a build key as a tag path segment
(`src`, `embedded[...]`, or the opaque key). -/
def buildSeg : Build → String
  | .source => "src"
  | .embedded payload => "embedded[" ++ payload ++ "]"
  | .buildId key => key

/-- `build_spec_tag` for a version identifier: `spk/spec/<name>/<version>`
(spfs.rs, `build_spec_tag`; segment joining modelled from the spec). -/
def buildSpecTagV (pkg : VersionIdent) : List String :=
  ["spk", "spec", pkg.name, versionSeg pkg.version]

/-- `build_package_tag` for a version identifier: `spk/pkg/<name>/<version>`
(spfs.rs, `build_package_tag`). -/
def buildPackageTagV (pkg : VersionIdent) : List String :=
  ["spk", "pkg", pkg.name, versionSeg pkg.version]

/-- `build_spec_tag` for a build identifier:
`spk/spec/<name>/<version>/<build>`. -/
def buildSpecTagB (pkg : BuildIdent) : List String :=
  ["spk", "spec", pkg.name, versionSeg pkg.version, buildSeg pkg.build]

/-- `build_package_tag` for a build identifier:
`spk/pkg/<name>/<version>/<build>`. -/
def buildPackageTagB (pkg : BuildIdent) : List String :=
  ["spk", "pkg", pkg.name, versionSeg pkg.version, buildSeg pkg.build]

/-- `spfs::storage::EntryType`: a tag-folder listing entry is either a tag
or a folder (modelled from the spec's tag namespace). -/
inductive EntryType where
  | tag (name : String)
  | folder (name : String)
deriving DecidableEq, Repr

/-- Modelled from the spec: a tag spec is a parsed tag path.  `TagSpec`
lives in the external spfs crate; we keep the path segments.  The
`TagSpec::parse` calls in the embedded code always receive paths built by
the tag-path encoder and are modelled as succeeding. -/
structure TagSpec where
  path : List String
deriving DecidableEq, Repr

/-- `TagSpec::name`: the final path segment. -/
def TagSpec.name (t : TagSpec) : String :=
  (t.path.getLast?).getD ""

/-- Modelled from the spec: a resolved tag points at a content digest
(metadata fields are not needed by the claims proved here). -/
structure Tag where
  target : String
deriving DecidableEq, Repr

/-- Modelled from the spec: errors of the external spfs CAS; the
repository layer only distinguishes `UnknownReference` from the rest. -/
inductive SpfsError where
  | unknownReference (msg : String)
  | other (msg : String)
deriving DecidableEq, Repr

/-- The spk storage error kinds surfaced by the embedded code (the error
enum itself lives outside the provided sources and is modelled from the
spec's §7 error list). -/
inductive Error where
  | invalidPackageSpec (ident : AnyIdent) (msg : String)
  | packageNotFound (ident : AnyIdent)
  | stringError (msg : String)
  | versionExists (ident : VersionIdent)
  | spfsError (e : SpfsError)
  | fileReadError (filename msg : String)
  | spkSpecError (msg : String)
  | invalidRepositoryMetadata (msg : String)
deriving DecidableEq, Repr

/-- `Error::is_package_not_found`, modelled from the spec's removal
combination rule. -/
def Error.isPackageNotFound : Error → Bool
  | .packageNotFound _ => true
  | _ => false

/-- `From<spfs::Error> for Error`: spfs errors propagate unchanged
(modelled from the spec: "Unspecified CAS errors propagate unchanged"). -/
def Error.ofSpfs (e : SpfsError) : Error :=
  .spfsError e

/-- `CacheValue` (spfs.rs lines 148-155): the cache-entry taxonomy. -/
inductive CacheValue (T : Type) where
  | invalidPackageSpec (ident : AnyIdent) (msg : String)
  | packageNotFound (ident : AnyIdent)
  | stringError (msg : String)
  | stringifiedError (msg : String)
  | success (v : T)
deriving DecidableEq, Repr

/-- `From<Result<T, &Error>> for CacheValue<T>` (spfs.rs lines 169-183).
`display` stands for the `Display` rendering of the error type, which is
implemented outside the provided sources. -/
def CacheValue.ofResult (display : Error → String) : Except Error T → CacheValue T
  | .ok v => .success v
  | .error (.invalidPackageSpec i err) => .invalidPackageSpec i err
  | .error (.packageNotFound i) => .packageNotFound i
  | .error (.stringError s) => .stringError s
  | .error err => .stringifiedError ("Cached error: " ++ display err)

/-- `From<CacheValue<T>> for Result<T>` (spfs.rs lines 157-167). -/
def CacheValue.toResult : CacheValue T → Except Error T
  | .invalidPackageSpec i err => .error (.invalidPackageSpec i err)
  | .packageNotFound i => .error (.packageNotFound i)
  | .stringError s => .error (.stringError s)
  | .stringifiedError s => .error (.stringError s)
  | .success v => .ok v

/-- Modelled from the spec: the cache policy of a repository handle
(`CachePolicy` lives in repository.rs, outside the provided sources). -/
inductive CachePolicy where
  | cacheOk
  | bypassCache
deriving DecidableEq, Repr

/-- Modelled from the spec: "Reads consult the cache only when the current
policy is CacheOk" (`CachePolicy::cached_result_permitted`). -/
def CachePolicy.cachedResultPermitted : CachePolicy → Bool
  | .cacheOk => true
  | .bypassCache => false

/-- Lookup in an association list; models `DashMap::get`. -/
def alistFind [DecidableEq κ] : List (κ × ν) → κ → Option ν
  | [], _ => none
  | (k, v) :: rest, key => if k = key then some v else alistFind rest key

/-- Insert into an association list; models `DashMap::insert` (the new
entry shadows any older one). -/
def alistInsert (c : List (κ × ν)) (k : κ) (v : ν) : List (κ × ν) :=
  (k, v) :: c

/-- The shared shape of the cache-consulting reads backed by `CacheValue`
maps (`read_recipe`, spfs.rs lines 767-794, and likewise
`read_package_from_storage`, `read_embed_stub`, `list_package_versions`,
`list_build_components` and `resolve_tag`): consult the cache only when
the policy permits, otherwise compute and insert the converted result.
`compute` stands for the CAS access; the returned boolean records whether
the CAS was consulted. -/
def cachedRead [DecidableEq κ] (display : Error → String) (policy : CachePolicy)
    (cache : List (κ × CacheValue ν)) (key : κ) (compute : Except Error ν) :
    Except Error ν × List (κ × CacheValue ν) × Bool :=
  match (if policy.cachedResultPermitted then alistFind cache key else none) with
  | some v => (v.toResult, cache, false)
  | none => (compute, alistInsert cache key (CacheValue.ofResult display compute), true)

/-- Keep the successful entries of a tag listing (`r.iter().filter_map(|r|
r.as_ref().ok())` in `ls_tags`). -/
def entryOk : Except String EntryType → Option EntryType
  | .ok e => some e
  | .error _ => none

/-- `SpfsRepository::ls_tags` (spfs.rs lines 915-938): the cached
tag-folder listing.  Unlike the `CacheValue` maps, only the successful
entries of the fresh result are inserted into the cache, and a cache hit
re-wraps them in `Ok`.  The returned boolean records whether the CAS was
consulted. -/
def lsTagsCached (policy : CachePolicy)
    (cache : List (List String × List EntryType)) (path : List String)
    (compute : List (Except String EntryType)) :
    List (Except String EntryType) × List (List String × List EntryType) × Bool :=
  match (if policy.cachedResultPermitted then alistFind cache path else none) with
  | some v => (v.map Except.ok, cache, false)
  | none => (compute, alistInsert cache path (compute.filterMap entryOk), true)

/-- `Component` (component_spec.rs lines 29-36). -/
inductive Component where
  | all
  | build
  | run
  | source
  | named (value : String)
deriving DecidableEq, Repr

/-- `Component::parse` (component_spec.rs lines 66-77).  `valid` models the
`PkgName::new` validation, whose implementation is outside the provided
sources: components follow the same naming requirements as packages. -/
def Component.parse (valid : String → Bool) (source : String) : Option Component :=
  if valid source then
    some (match source with
      | "all" => Component.all
      | "run" => Component.run
      | "build" => Component.build
      | "src" => Component.source
      | _ => Component.named source)
  else
    none

/-- `Component::as_str` (component_spec.rs lines 79-87). -/
def Component.asStr : Component → String
  | .all => "all"
  | .run => "run"
  | .build => "build"
  | .source => "src"
  | .named value => value

/-- `StoredPackage` (spfs.rs lines 1071-1074): a discovered package is
either legacy (one scalar tag) or component-aware (one tag per
component).  The component map is kept as an association list. -/
inductive StoredPackage where
  | withoutComponents (tag : TagSpec)
  | withComponents (cmpts : List (Component × TagSpec))
deriving DecidableEq, Repr

/-- `StoredPackage::has_components` (spfs.rs lines 1079-1081). -/
def StoredPackage.hasComponents : StoredPackage → Bool
  | .withComponents _ => true
  | .withoutComponents _ => false

/-- `StoredPackage::tags` (spfs.rs lines 1084-1089). -/
def StoredPackage.tags : StoredPackage → List TagSpec
  | .withoutComponents tag => [tag]
  | .withComponents cmpts => cmpts.map (fun p => p.2)

/-- `StoredPackage::into_components` (spfs.rs lines 1093-1105). -/
def StoredPackage.intoComponents : StoredPackage → List (Component × TagSpec)
  | .withComponents cmpts => cmpts
  | .withoutComponents tag =>
    if tag.name = "src" then
      [(Component.source, tag)]
    else
      [(Component.build, tag), (Component.run, tag)]

/-- `Except.isOk` for the model. -/
def exceptIsOk : Except ε α → Bool
  | .ok _ => true
  | .error _ => false

/-- `Except.toOption` for the model (`Result::ok`). -/
def exceptOk : Except ε α → Option α
  | .ok v => some v
  | .error _ => none

/-- The component tag-spec collection of `lookup_package` (spfs.rs lines
1010-1021): the listed tag entries that parse as component names and
whose joined paths parse as tag specs. -/
def componentTagSpecs (lsT : List String → List (Except String EntryType))
    (tagSpecParse : List String → Except SpfsError TagSpec) (valid : String → Bool)
    (tagPath : List String) : List (Component × TagSpec) :=
  (((lsT tagPath).filterMap fun entry =>
      match entry with
      | .ok (.tag name) => some name
      | .ok (.folder _) => none
      | .error _ => none)
    |>.filterMap fun e => (Component.parse valid e).map fun c => (c, e))
    |>.filterMap fun p => (exceptOk (tagSpecParse (tagPath ++ [p.2]))).map fun t => (p.1, t)

/-- `SpfsRepository::lookup_package` (spfs.rs lines 1007-1030).  `lsT` and
`resolveTag` stand for the (cache-aware) `self.ls_tags` and
`self.resolve_tag` as observed under the ambient cache policy;
`tagSpecParse` models `spfs::tracking::TagSpec::parse` (external to the
provided sources), whose failures are skipped for component entries (line
1020) but propagate for the scalar tag (line 1025); `valid` models
`PkgName::new` as in `Component.parse`.  The `self.has_tag` probe is
`resolve_tag(..).is_ok()` (spfs.rs lines 897-903). -/
def lookupPackage (lsT : List String → List (Except String EntryType))
    (tagSpecParse : List String → Except SpfsError TagSpec)
    (resolveTag : TagSpec → Except Error Tag) (valid : String → Bool)
    (pkg : BuildIdent) : Except Error StoredPackage :=
  let tagPath := buildPackageTagB pkg
  let tagSpecs : List (Component × TagSpec) :=
    componentTagSpecs lsT tagSpecParse valid tagPath
  if tagSpecs.isEmpty then
    match tagSpecParse tagPath with
    | .error err => .error (Error.ofSpfs err)
    | .ok tagSpec =>
      if exceptIsOk (resolveTag tagSpec) then
        .ok (.withoutComponents tagSpec)
      else
        .error (.packageNotFound pkg.toAny)
  else
    .ok (.withComponents tagSpecs)

/-- The probe part-lengths of `get_concrete_package_builds` (spfs.rs lines
269-278): the lengths `1..=5` that exceed the normalized length, followed
by the normalized length itself. -/
def probeLengths (len : Nat) : List Nat :=
  ((List.range' 1 5).filter fun numParts => len < numParts) ++ [len]

/-- The entry collection of `get_concrete_package_builds` (spfs.rs lines
303-316): folder names are kept unconditionally, tag names only when they
do not start with the `embedded[` prefix, and per-entry errors are
skipped. -/
def collectBuildNames (entries : List (Except String EntryType)) : List String :=
  entries.filterMap fun entry =>
    match entry with
    | .ok (.tag name) => if name.startsWith "embedded[" then none else some name
    | .ok (.folder name) => some name
    | .error _ => none

/-- The zero-padded version variants probed by
`get_concrete_package_builds` (spfs.rs lines 268-293): for each probe
part-length, take that many parts from the normalized parts extended with
zeros; the `plus_epsilon` marker comes from the normalized parts and the
pre/post markers from the requested version. -/
def probedVersions (pkg : VersionIdent) : List Version :=
  let normalizedParts := pkg.version.parts.normalize
  (probeLengths normalizedParts.parts.length).map fun numParts =>
    { parts :=
        { parts := (normalizedParts.parts ++ List.replicate numParts 0).take numParts
          plusEpsilon := normalizedParts.plusEpsilon }
      pre := pkg.version.pre
      post := pkg.version.post }

/-- `get_concrete_package_builds` (spfs.rs lines 237-329).  `lsT` stands
for the (cache-aware) `self.ls_tags`; `parseBuild` models the external
`parse_build` helper.  For each probed version variant both the
`spk/spec` and `spk/pkg` trees are listed, and every collected name that
parses as a build key is added to the result. -/
def getConcretePackageBuilds (lsT : List String → List (Except String EntryType))
    (parseBuild : String → Option Build) (pkg : VersionIdent) : List BuildIdent :=
  (probedVersions pkg).flatMap fun version =>
    let pkg := pkg.withVersion version
    let specBase := buildSpecTagV pkg
    let packageBase := buildPackageTagV pkg
    ((collectBuildNames (lsT specBase ++ lsT packageBase)).filterMap parseBuild).map
      fun b => pkg.toBuild b

/-- Modelled from the spec: the publish policy of `publish_recipe_to_storage`
(`PublishPolicy` lives in repository.rs, outside the provided sources);
the default policy overwrites. -/
inductive PublishPolicy where
  | overwriteVersion
  | doNotOverwriteVersion
deriving DecidableEq, Repr

/-- Modelled from the spec: a recipe is opaque to the repository layer
beyond its identifier; `body` stands for the YAML payload produced by
serialization. -/
structure SpecRecipe where
  ident : VersionIdent
  body : String
deriving DecidableEq, Repr

/-- Modelled from the spec: a built package spec, opaque beyond its
identifier. -/
structure SpecPackage where
  ident : BuildIdent
  body : String
deriving DecidableEq, Repr

/-- The CAS tag/blob state touched by the publish operations.  Pushed tags
and committed blobs are appended in order; `commit_blob` is modelled as
returning the payload itself as its content digest. -/
structure PublishState where
  tags : List (TagSpec × String)
  blobs : List String
deriving DecidableEq, Repr

/-- `spfs::Repository::has_tag` on the inner CAS (used directly, without
the cache, by `publish_recipe_to_storage`). -/
def PublishState.hasTag (st : PublishState) (t : TagSpec) : Bool :=
  st.tags.any fun p => p.1 = t

/-- `publish_recipe_to_storage` (spfs.rs lines 448-473).  `toYaml` stands
for `serde_yaml::to_string`, modelled as total.  Under
`DoNotOverwriteVersion` an existing spec tag aborts with `VersionExists`
before the blob is committed or any tag pushed; otherwise the payload is
committed and the spec tag pushed.  (Cache invalidation on the success
path is not part of this state.) -/
def publishRecipeToStorage (toYaml : SpecRecipe → String) (st : PublishState)
    (spec : SpecRecipe) (publishPolicy : PublishPolicy) :
    Except Error Unit × PublishState :=
  let tagPath := buildSpecTagV spec.ident
  let tagSpec := TagSpec.mk tagPath
  if publishPolicy = .doNotOverwriteVersion ∧ st.hasTag tagSpec then
    (.error (.versionExists spec.ident), st)
  else
    let payload := toYaml spec
    let digest := payload
    let st := { st with blobs := st.blobs ++ [payload] }
    let st := { st with tags := st.tags ++ [(tagSpec, digest)] }
    (.ok (), st)

/-- `publish_package_to_storage` (spfs.rs lines 400-446).  The legacy tag
is pushed first, pointing at the `Source` component for source builds and
the `Run` component otherwise; a missing required component aborts before
any tag is pushed.  Then one tag per component is pushed, and finally the
spec blob is committed and the spec tag pushed. -/
def publishPackageToStorage (toYaml : SpecPackage → String) (st : PublishState)
    (package : SpecPackage) (components : List (Component × String)) :
    Except Error Unit × PublishState :=
  let tagPath := buildPackageTagB package.ident
  let legacyTag := TagSpec.mk tagPath
  let isSource := package.ident.build = Build.source
  let legacyComponent :=
    if isSource then alistFind components Component.source
    else alistFind components Component.run
  match legacyComponent with
  | none =>
    (.error (.stringError
      (if isSource then "Package must have a source component to be published"
       else "Package must have a run component to be published")), st)
  | some digest =>
    let st := { st with tags := st.tags ++ [(legacyTag, digest)] }
    let componentTags := components.map fun p =>
      (TagSpec.mk (tagPath ++ [p.1.asStr]), p.2)
    let st := { st with tags := st.tags ++ componentTags }
    let payload := toYaml package
    let st := { st with blobs := st.blobs ++ [payload] }
    let st := { st with tags := st.tags ++ [(TagSpec.mk (buildSpecTagB package.ident), payload)] }
    (.ok (), st)

/-- The component-tag deletion group of `remove_package_from_storage`
(spfs.rs lines 549-564): walk the tags of the looked-up package, treating
`UnknownReference` as "nothing deleted here" and any other CAS error as
fatal; report whether anything was deleted. -/
def removeTagsLoop (removeTag : TagSpec → Except SpfsError Unit) :
    List TagSpec → Bool → Except Error Bool
  | [], deletedSomething => .ok deletedSomething
  | tagSpec :: rest, deletedSomething =>
    match removeTag tagSpec with
    | .error (.unknownReference _) => removeTagsLoop removeTag rest deletedSomething
    | .ok _ => removeTagsLoop removeTag rest true
    | .error err => .error (Error.ofSpfs err)

/-- Deletion group (a) of `remove_package_from_storage`: every component
tag reported by `lookup_package` under `BypassCache` (spfs.rs lines
549-564).  The bypass policy is reflected by passing the raw CAS access
functions to `lookupPackage`. -/
def componentTagsGroup (lsT : List String → List (Except String EntryType))
    (tagSpecParse : List String → Except SpfsError TagSpec)
    (resolveTag : TagSpec → Except Error Tag) (valid : String → Bool)
    (removeTag : TagSpec → Except SpfsError Unit) (pkg : BuildIdent) :
    Except Error Bool :=
  match lookupPackage lsT tagSpecParse resolveTag valid pkg with
  | .error err => .error err
  | .ok stored => removeTagsLoop removeTag stored.tags false

/-- Deletion group (b) of `remove_package_from_storage`: the legacy tag
(spfs.rs lines 566-581).  `TagSpec::parse` on the built package tag is
modelled as succeeding. -/
def legacyTagsGroup (removeTag : TagSpec → Except SpfsError Unit)
    (pkg : BuildIdent) : Except Error Bool :=
  match removeTag (TagSpec.mk (buildPackageTagB pkg)) with
  | .error (.unknownReference _) => .ok false
  | .ok _ => .ok true
  | .error err => .error (Error.ofSpfs err)

/-- Deletion group (c) of `remove_package_from_storage`: the spec tag
(spfs.rs lines 583-591); `UnknownReference` becomes `PackageNotFound`. -/
def buildRecipeTagsGroup (removeTag : TagSpec → Except SpfsError Unit)
    (pkg : BuildIdent) : Except Error Bool :=
  match removeTag (TagSpec.mk (buildSpecTagB pkg)) with
  | .error (.unknownReference _) => .error (.packageNotFound pkg.toAny)
  | .error err => .error (Error.ofSpfs err)
  | .ok _ => .ok true

/-- One step of the result-combination fold of
`remove_package_from_storage` (spfs.rs lines 615-630).  The Rust match
arms, whose guards fire in order, flatten to: a non-`PackageNotFound`
error in the accumulator wins, then a non-`PackageNotFound` incoming
error, successes merge with `||`, a prior or incoming `Ok(true)` absorbs a
`PackageNotFound`, and otherwise the prevailing error is kept (the
accumulator's first, then the incoming one). -/
def combineStep (acc x : Except Error Bool) : Except Error Bool :=
  match acc, x with
  | .error err, x' =>
    if ¬ err.isPackageNotFound then .error err
    else
      match x' with
      | .error err2 => if ¬ err2.isPackageNotFound then .error err2 else .error err
      | .ok true => .ok true
      | .ok false => .error err
  | .ok a, .error err2 =>
    if ¬ err2.isPackageNotFound then .error err2
    else if a then .ok true
    else .error err2
  | .ok a, .ok b => .ok (a || b)

/-- The six caches of `CachesForAddress` (spfs.rs lines 189-202), with the
concurrent maps modelled as association lists.  The value types mirror
the source field types. -/
structure Caches where
  listBuildComponents : List (BuildIdent × CacheValue (List Component))
  lsTags : List (List String × List EntryType)
  package : List (BuildIdent × CacheValue SpecPackage)
  packageVersions : List (String × CacheValue (List Version))
  recipe : List (VersionIdent × CacheValue SpecRecipe)
  tagSpec : List (TagSpec × CacheValue Tag)
deriving Repr

/-- `invalidate_caches` (spfs.rs lines 906-913): clear all six maps. -/
def invalidateCaches (_c : Caches) : Caches :=
  { listBuildComponents := []
    lsTags := []
    package := []
    packageVersions := []
    recipe := []
    tagSpec := [] }

/-- The result-combination fold of `remove_package_from_storage` (spfs.rs
lines 606-614): component tags first, then the build recipe tags, with
the legacy tags checked last because their errors are least important. -/
def combineRemoveResults
    (componentTagsResult buildRecipeTagsResult legacyTagsResult : Except Error Bool) :
    Except Error Bool :=
  [componentTagsResult, buildRecipeTagsResult, legacyTagsResult].foldl
    combineStep (.ok false)

/-- `remove_package_from_storage` (spfs.rs lines 539-638): run the three
deletion groups, invalidate the caches once, then fold the group results
in the source order (component tags, build recipe tags, legacy tags) and
convert "nothing deleted" into `PackageNotFound`. -/
def removePackageFromStorage (lsT : List String → List (Except String EntryType))
    (tagSpecParse : List String → Except SpfsError TagSpec)
    (resolveTag : TagSpec → Except Error Tag) (valid : String → Bool)
    (removeTag : TagSpec → Except SpfsError Unit) (pkg : BuildIdent)
    (caches : Caches) : Except Error Unit × Caches :=
  let componentTagsResult := componentTagsGroup lsT tagSpecParse resolveTag valid removeTag pkg
  let legacyTagsResult := legacyTagsGroup removeTag pkg
  let buildRecipeTagsResult := buildRecipeTagsGroup removeTag pkg
  let caches := invalidateCaches caches
  let result : Except Error Unit :=
    match combineRemoveResults componentTagsResult buildRecipeTagsResult legacyTagsResult with
    | .error err => .error err
    | .ok true => .ok ()
    | .ok false => .error (.packageNotFound pkg.toAny)
  (result, caches)

/-- The result computation of `list_build_components` (spfs.rs lines
708-716): embedded builds yield an empty component list, a
`PackageNotFound` from `lookup_package` is converted into an empty list,
and any other error propagates. -/
def listBuildComponentsResult (lsT : List String → List (Except String EntryType))
    (tagSpecParse : List String → Except SpfsError TagSpec)
    (resolveTag : TagSpec → Except Error Tag) (valid : String → Bool)
    (pkg : BuildIdent) : Except Error (List Component) :=
  if pkg.build.isEmbedded then
    .ok []
  else
    match lookupPackage lsT tagSpecParse resolveTag valid pkg with
    | .ok p => .ok (p.intoComponents.map fun c => c.1)
    | .error (.packageNotFound _) => .ok []
    | .error err => .error err

/-- `list_build_components` (spfs.rs lines 701-722): the cached wrapper
around the result computation, keyed by the build identifier. -/
def listBuildComponents (display : Error → String) (policy : CachePolicy)
    (cache : List (BuildIdent × CacheValue (List Component)))
    (lsT : List String → List (Except String EntryType))
    (tagSpecParse : List String → Except SpfsError TagSpec)
    (resolveTag : TagSpec → Except Error Tag) (valid : String → Bool)
    (pkg : BuildIdent) :
    Except Error (List Component) × List (BuildIdent × CacheValue (List Component)) × Bool :=
  cachedRead display policy cache pkg
    (listBuildComponentsResult lsT tagSpecParse resolveTag valid pkg)

/-- `RepositoryMetadata` (spfs.rs lines 1064-1067). -/
structure RepositoryMetadata where
  version : Version
deriving DecidableEq, Repr

/-- `REPO_VERSION` (spfs.rs line 41): the upgrade target version
`1.0.0`. -/
def repoVersionTarget : Version :=
  { parts := { parts := [1, 0, 0], plusEpsilon := false }, pre := "", post := "" }

/-- The inputs of `upgrade` (spfs.rs lines 809-879): the repository
metadata plus the non-embedded builds discovered by the name, version and
build enumeration, each with its stored form as found by `lookup_package`
under `BypassCache`.  The enumeration itself and the embedded-stub
re-creation call external helpers outside the provided sources and are
abstracted into this input. -/
structure UpgradeRepo where
  meta : RepositoryMetadata
  builds : List (BuildIdent × StoredPackage)
deriving Repr

/-- The observable outcome of `upgrade`: the report string, the metadata
as stored on completion, and the component tags replicated from legacy
tags. -/
structure UpgradeOutcome where
  report : String
  meta : RepositoryMetadata
  replicatedTags : List (BuildIdent × Component × TagSpec)
deriving Repr

/-- `upgrade` (spfs.rs lines 809-879).  When the stored metadata version
is strictly greater than the target, nothing is done and "Nothing to do."
is reported (the source deliberately re-runs when the versions are equal,
spfs.rs lines 812-818).  Otherwise every stored package that still lacks
component tags has its legacy tag replicated into component tags, the
metadata version is set to the target and "Repo up to date" is
reported. -/
def upgrade (repo : UpgradeRepo) : UpgradeOutcome :=
  if Version.lt repoVersionTarget repo.meta.version then
    { report := "Nothing to do.", meta := repo.meta, replicatedTags := [] }
  else
    { report := "Repo up to date"
      meta := { version := repoVersionTarget }
      replicatedTags := repo.builds.flatMap fun bs =>
        if bs.1.build.isEmbedded then []
        else if bs.2.hasComponents then []
        else bs.2.intoComponents.map fun ct => (bs.1, ct.1, ct.2) }

/-- The default repository metadata version (`Version::default()`): no
parts, which normalizes below the target. -/
def emptyVersion : Version :=
  { parts := { parts := [], plusEpsilon := false }, pre := "", post := "" }

/-- A sample version strictly above the upgrade target. -/
def version200 : Version :=
  { parts := { parts := [2, 0, 0], plusEpsilon := false }, pre := "", post := "" }

/-- The first error among a list of group results that satisfies `p`
(used to characterize the removal combination fold). -/
def firstErrorWhere (p : Error → Bool) : List (Except Error Bool) → Option Error
  | [] => none
  | .error e :: rest => if p e then some e else firstErrorWhere p rest
  | .ok _ :: rest => firstErrorWhere p rest

/-- Test fixture: a CAS whose every tag folder lists the given entries. -/
def sampleLsTags (entries : List (Except String EntryType)) :
    List String → List (Except String EntryType) :=
  fun _ => entries

/-- Test fixture: a tag-spec parser that accepts every path. -/
def sampleTagSpecParse : List String → Except SpfsError TagSpec :=
  fun p => .ok (TagSpec.mk p)

/-- Test fixture: a CAS in which every tag resolves to one digest. -/
def sampleResolveOk : TagSpec → Except Error Tag :=
  fun _ => .ok (Tag.mk "digest")

/-- Test fixture: a CAS in which no tag resolves. -/
def sampleResolveMissing : TagSpec → Except Error Tag :=
  fun _ => .error (.packageNotFound { name := "a", version := repoVersionTarget, build := none })

/-- Test fixture: every string passes the package-name validation. -/
def alwaysValid : String → Bool :=
  fun _ => true

/-- Test fixture: a concrete non-source build identifier. -/
def sampleBuild : BuildIdent :=
  { name := "a", version := repoVersionTarget, build := .buildId "B" }

/-- Test fixture: empty caches. -/
def emptyCaches : Caches :=
  { listBuildComponents := [], lsTags := [], package := [], packageVersions := []
    recipe := [], tagSpec := [] }

/-- Test fixture: every tag-stream removal succeeds. -/
def sampleRemoveOk : TagSpec → Except SpfsError Unit :=
  fun _ => .ok ()

/-- Test fixture: every tag-stream removal reports an unknown reference. -/
def sampleRemoveUnknown : TagSpec → Except SpfsError Unit :=
  fun _ => .error (.unknownReference "x")

/-- Test fixture: every tag-stream removal fails with a CAS error. -/
def sampleRemoveBroken : TagSpec → Except SpfsError Unit :=
  fun _ => .error (.other "disk")

/-!  ## Theorems  -/

/-- C9: round-tripping an error through a cache entry preserves the
principal variants: `InvalidPackageSpec`, `PackageNotFound` and plain
string errors come back unchanged, and every other typed error comes back
as a plain string error whose message is the original error's display
text prefixed with "Cached error: ". -/
theorem cacheValue_error_roundtrip (T : Type) (display : Error → String) (e : Error) :
    (CacheValue.ofResult display (Except.error e) : CacheValue T).toResult
      = Except.error (match e with
        | .invalidPackageSpec i msg => .invalidPackageSpec i msg
        | .packageNotFound i => .packageNotFound i
        | .stringError s => .stringError s
        | e => .stringError ("Cached error: " ++ display e)) := by
  cases e <;> rfl

/-- C8: `into_components` is the identity on `WithComponents`; a
`WithoutComponents` tag whose final name is "src" maps to the one-entry
map `{Source: tag}`, and any other tag is duplicated into
`{Build: tag, Run: tag}`. -/
theorem storedPackage_intoComponents_spec :
    (∀ cmpts, (StoredPackage.withComponents cmpts).intoComponents = cmpts)
    ∧ (∀ tag : TagSpec, tag.name = "src" →
        (StoredPackage.withoutComponents tag).intoComponents = [(Component.source, tag)])
    ∧ (∀ tag : TagSpec, tag.name ≠ "src" →
        (StoredPackage.withoutComponents tag).intoComponents
          = [(Component.build, tag), (Component.run, tag)]) := by
  refine ⟨fun cmpts => rfl, fun tag h => ?_, fun tag h => ?_⟩ <;>
    simp [StoredPackage.intoComponents, h]

/-- Witness for C8: concrete evaluations through the theorem. -/
theorem storedPackage_intoComponents_spec_witness :
    (StoredPackage.withComponents
        [(Component.run, TagSpec.mk ["spk", "pkg", "a", "1.0", "B", "run"])]).intoComponents
      = [(Component.run, TagSpec.mk ["spk", "pkg", "a", "1.0", "B", "run"])]
    ∧ (StoredPackage.withoutComponents
        (TagSpec.mk ["spk", "pkg", "a", "1.0", "src"])).intoComponents
      = [(Component.source, TagSpec.mk ["spk", "pkg", "a", "1.0", "src"])]
    ∧ (StoredPackage.withoutComponents
        (TagSpec.mk ["spk", "pkg", "a", "1.0", "GMTG3CXY"])).intoComponents
      = [(Component.build, TagSpec.mk ["spk", "pkg", "a", "1.0", "GMTG3CXY"]),
         (Component.run, TagSpec.mk ["spk", "pkg", "a", "1.0", "GMTG3CXY"])] :=
  ⟨storedPackage_intoComponents_spec.1 _,
   storedPackage_intoComponents_spec.2.1 _ (by decide),
   storedPackage_intoComponents_spec.2.2 _ (by decide)⟩

/-- C2 counterexample: a repository on which `upgrade` has completed
(metadata version equal to the target 1.0.0, which is exactly what a
completed run stores) does not report "Nothing to do." on the next run;
the source deliberately re-runs and reports "Repo up to date" because the
gate is `meta.version > target_version`, strictly. -/
theorem upgrade_rerun_counterexample :
    (upgrade { meta := { version := emptyVersion }, builds := [] }).meta.version
        = repoVersionTarget
    ∧ (upgrade { meta := { version := repoVersionTarget }, builds := [] }).report
        = "Repo up to date"
    ∧ (upgrade { meta := { version := repoVersionTarget }, builds := [] }).report
        ≠ "Nothing to do." := by
  refine ⟨rfl, rfl, ?_⟩
  decide

/-- C2 amended: `upgrade` reports "Nothing to do." (doing nothing) exactly
when the stored metadata version is strictly greater than the target
1.0.0; a completed run stores a metadata version equal to the target, so
an immediately following `upgrade` re-runs the per-package processing and
reports "Repo up to date". -/
theorem upgrade_gate_spec (repo : UpgradeRepo) :
    ((upgrade repo).report = "Nothing to do."
        ↔ Version.lt repoVersionTarget repo.meta.version = true)
    ∧ (Version.lt repoVersionTarget repo.meta.version = true →
        upgrade repo = { report := "Nothing to do.", meta := repo.meta, replicatedTags := [] })
    ∧ (Version.lt repoVersionTarget repo.meta.version = false →
        (upgrade repo).meta.version = repoVersionTarget
        ∧ ∀ builds2, (upgrade { meta := (upgrade repo).meta, builds := builds2 }).report
            = "Repo up to date") := by
  by_cases h : Version.lt repoVersionTarget repo.meta.version = true
  · refine ⟨?_, fun _ => ?_, fun hf => absurd h (by simp [hf])⟩ <;> simp [upgrade, h]
  · have h' : Version.lt repoVersionTarget repo.meta.version = false := by
      revert h
      cases Version.lt repoVersionTarget repo.meta.version <;> simp
    have hne : ("Repo up to date" = "Nothing to do.") = False := by
      simp
    have hgate : Version.lt repoVersionTarget repoVersionTarget = false := by decide
    refine ⟨?_, fun ht => absurd ht (by simp [h']), fun _ => ⟨?_, fun builds2 => ?_⟩⟩
    · simp [upgrade, h', hne]
    · simp [upgrade, h']
    · simp [upgrade, h', hgate]

/-- Witness for C2 (amended): the theorem applied to a repository above
the target and to one at the target. -/
theorem upgrade_gate_spec_witness :
    upgrade { meta := { version := version200 }, builds := [] }
      = { report := "Nothing to do.", meta := { version := version200 },
          replicatedTags := [] }
    ∧ (upgrade { meta := { version := repoVersionTarget }, builds := [] }).meta.version
        = repoVersionTarget
    ∧ (upgrade { meta := (upgrade { meta := { version := repoVersionTarget }, builds := [] }).meta, builds := [] }).report = "Repo up to date" :=
  ⟨(upgrade_gate_spec _).2.1 (by decide),
   ((upgrade_gate_spec { meta := { version := repoVersionTarget }, builds := [] }).2.2
      (by decide)).1,
   ((upgrade_gate_spec { meta := { version := repoVersionTarget }, builds := [] }).2.2
      (by decide)).2 []⟩

/-- C10: `list_build_components` returns an empty component list for
embedded builds and for builds on which `lookup_package` fails with
`PackageNotFound`; an error is returned to the caller only when it is not
`PackageNotFound`, and then it is the `lookup_package` error itself. -/
theorem listBuildComponents_swallows_not_found
    (lsT : List String → List (Except String EntryType))
    (tagSpecParse : List String → Except SpfsError TagSpec)
    (resolveTag : TagSpec → Except Error Tag) (valid : String → Bool)
    (pkg : BuildIdent) :
    (pkg.build.isEmbedded = true →
      listBuildComponentsResult lsT tagSpecParse resolveTag valid pkg = .ok [])
    ∧ (∀ i, lookupPackage lsT tagSpecParse resolveTag valid pkg = .error (.packageNotFound i) →
      listBuildComponentsResult lsT tagSpecParse resolveTag valid pkg = .ok [])
    ∧ (∀ err, listBuildComponentsResult lsT tagSpecParse resolveTag valid pkg = .error err →
      err.isPackageNotFound = false
      ∧ pkg.build.isEmbedded = false
      ∧ lookupPackage lsT tagSpecParse resolveTag valid pkg = .error err) := by
  refine ⟨fun hemb => ?_, fun i hpnf => ?_, fun err herr => ?_⟩
  · simp [listBuildComponentsResult, hemb]
  · by_cases hemb : pkg.build.isEmbedded = true
    · simp [listBuildComponentsResult, hemb]
    · simp only [Bool.not_eq_true] at hemb
      simp [listBuildComponentsResult, hemb, hpnf]
  · by_cases hemb : pkg.build.isEmbedded = true
    · simp [listBuildComponentsResult, hemb] at herr
    · simp only [Bool.not_eq_true] at hemb
      simp only [listBuildComponentsResult, hemb, Bool.false_eq_true, if_false] at herr
      rcases hl : lookupPackage lsT tagSpecParse resolveTag valid pkg with e | p
      · rw [hl] at herr
        cases e <;> simp_all [Error.isPackageNotFound] <;> subst herr <;> rfl
      · rw [hl] at herr
        simp at herr

/-- Witness for C10: the theorem applied to an embedded build, to a build
whose lookup misses, and to a build whose scalar tag-spec parse fails. -/
theorem listBuildComponents_swallows_not_found_witness :
    (listBuildComponentsResult (fun _ => []) (fun p => .ok (TagSpec.mk p))
      (fun _ => .error (.packageNotFound
        { name := "a", version := repoVersionTarget, build := none }))
      (fun _ => true)
      { name := "a", version := repoVersionTarget, build := .embedded "x" } = .ok [])
    ∧ (listBuildComponentsResult (fun _ => []) (fun p => .ok (TagSpec.mk p))
      (fun _ => .error (.packageNotFound
        { name := "a", version := repoVersionTarget, build := none }))
      (fun _ => true)
      { name := "a", version := repoVersionTarget, build := .buildId "B" } = .ok [])
    ∧ (.spfsError (.other "bad") : Error).isPackageNotFound = false := by
  refine ⟨(listBuildComponents_swallows_not_found _ _ _ _ _).1 rfl, ?_, ?_⟩
  · exact (listBuildComponents_swallows_not_found _ _ _ _ _).2.1
      ({ name := "a", version := repoVersionTarget, build := .buildId "B" } : BuildIdent).toAny
      (by decide)
  · exact ((listBuildComponents_swallows_not_found
      (fun _ => []) (fun _ => .error (.other "bad"))
      (fun _ => .error (.packageNotFound
        { name := "a", version := repoVersionTarget, build := none }))
      (fun _ => true)
      { name := "a", version := repoVersionTarget, build := .buildId "B" }).2.2
      (.spfsError (.other "bad")) (by decide)).1

/-- C5: under `DoNotOverwriteVersion`, an existing spec tag makes
`publish_recipe_to_storage` fail with `VersionExists` before any blob is
committed or tag pushed (state unchanged); under the default overwrite
policy an existing tag does not cause failure and the publish commits the
payload and pushes the spec tag. -/
theorem publishRecipe_overwrite_policy (toYaml : SpecRecipe → String)
    (st : PublishState) (spec : SpecRecipe) :
    (st.hasTag (TagSpec.mk (buildSpecTagV spec.ident)) = true →
      publishRecipeToStorage toYaml st spec .doNotOverwriteVersion
        = (.error (.versionExists spec.ident), st))
    ∧ (publishRecipeToStorage toYaml st spec .overwriteVersion
        = (.ok (), { tags := st.tags ++ [(TagSpec.mk (buildSpecTagV spec.ident), toYaml spec)],
                     blobs := st.blobs ++ [toYaml spec] })) := by
  constructor
  · intro h
    simp [publishRecipeToStorage, h]
  · simp [publishRecipeToStorage]

/-- Witness for C5: publishing the same recipe twice, the second time
under `DoNotOverwriteVersion`, through the theorem. -/
theorem publishRecipe_overwrite_policy_witness :
    (publishRecipeToStorage (fun r => r.body) { tags := [], blobs := [] }
        { ident := { name := "pkg-a", version := repoVersionTarget }, body := "yaml" }
        .overwriteVersion
      = (.ok (),
          { tags := [(TagSpec.mk ["spk", "spec", "pkg-a", "1.0.0"], "yaml")],
            blobs := ["yaml"] }))
    ∧ (publishRecipeToStorage (fun r => r.body)
        { tags := [(TagSpec.mk ["spk", "spec", "pkg-a", "1.0.0"], "yaml")], blobs := ["yaml"] }
        { ident := { name := "pkg-a", version := repoVersionTarget }, body := "yaml" }
        .doNotOverwriteVersion
      = (.error (.versionExists { name := "pkg-a", version := repoVersionTarget }),
          { tags := [(TagSpec.mk ["spk", "spec", "pkg-a", "1.0.0"], "yaml")], blobs := ["yaml"] })) :=
  ⟨(publishRecipe_overwrite_policy _ _ _).2,
   (publishRecipe_overwrite_policy _ _ _).1 (by decide)⟩

/-- C6: `publish_package_to_storage` pushes the legacy tag at
`spk/pkg/<name>/<version>/<build>` first, pointing at the `Source`
component's digest for source builds and the `Run` component's digest
otherwise; when the required component is missing, it fails with an error
and pushes no tags at all. -/
theorem publishPackage_legacy_tag (toYaml : SpecPackage → String)
    (st : PublishState) (package : SpecPackage) (components : List (Component × String)) :
    (∀ digest,
      alistFind components
          (if package.ident.build = Build.source then Component.source else Component.run)
        = some digest →
      (publishPackageToStorage toYaml st package components).1 = .ok ()
      ∧ ∃ rest, (publishPackageToStorage toYaml st package components).2.tags
          = st.tags ++ (TagSpec.mk (buildPackageTagB package.ident), digest) :: rest)
    ∧ (alistFind components
          (if package.ident.build = Build.source then Component.source else Component.run)
        = none →
      publishPackageToStorage toYaml st package components
        = (.error (.stringError (if package.ident.build = Build.source
            then "Package must have a source component to be published"
            else "Package must have a run component to be published")), st)) := by
  have hleg :
      (if package.ident.build = Build.source then alistFind components Component.source
        else alistFind components Component.run)
      = alistFind components
          (if package.ident.build = Build.source then Component.source else Component.run) :=
    (apply_ite (alistFind components) _ _ _).symm
  constructor
  · intro digest h
    refine ⟨?_, ?_⟩
    · simp [publishPackageToStorage, hleg, h]
    · refine ⟨(components.map fun p =>
        (TagSpec.mk (buildPackageTagB package.ident ++ [p.1.asStr]), p.2))
          ++ [(TagSpec.mk (buildSpecTagB package.ident), toYaml package)], ?_⟩
      simp [publishPackageToStorage, hleg, h]
  · intro h
    simp [publishPackageToStorage, hleg, h]

/-- Witness for C6: a non-source build published with a `Run` component,
and a source build missing its `Source` component, through the theorem. -/
theorem publishPackage_legacy_tag_witness :
    ((publishPackageToStorage (fun p => p.body) { tags := [], blobs := [] }
        { ident := { name := "pkg-a", version := repoVersionTarget, build := .buildId "B" },
          body := "yaml" }
        [(Component.run, "digest1")]).1 = .ok ())
    ∧ (publishPackageToStorage (fun p => p.body) { tags := [], blobs := [] }
        { ident := { name := "pkg-a", version := repoVersionTarget, build := .source },
          body := "yaml" }
        [(Component.run, "digest1")]
      = (.error (.stringError "Package must have a source component to be published"),
          { tags := [], blobs := [] })) := by
  constructor
  · exact ((publishPackage_legacy_tag _ _ _ _).1 "digest1" (by decide)).1
  · have h := (publishPackage_legacy_tag (fun p => p.body) { tags := [], blobs := [] }
      { ident := { name := "pkg-a", version := repoVersionTarget, build := .source },
        body := "yaml" }
      [(Component.run, "digest1")]).2 (by decide)
    simpa using h

/-- Helper: `exceptOk` returns `some` exactly on `Except.ok`. -/
theorem exceptOk_eq_some (x : Except ε α) (v : α) :
    exceptOk x = some v ↔ x = .ok v := by
  cases x <;> simp [exceptOk]

/-- Helper: membership in the component tag-spec collection of
`lookup_package` is exactly "a listed tag entry that parses as this
component and whose joined path parses as this tag spec". -/
theorem mem_componentTagSpecs
    (lsT : List String → List (Except String EntryType))
    (tagSpecParse : List String → Except SpfsError TagSpec) (valid : String → Bool)
    (tagPath : List String) (c : Component) (t : TagSpec) :
    (c, t) ∈ componentTagSpecs lsT tagSpecParse valid tagPath
      ↔ ∃ e, Except.ok (EntryType.tag e) ∈ lsT tagPath
          ∧ Component.parse valid e = some c
          ∧ tagSpecParse (tagPath ++ [e]) = .ok t := by
  constructor
  · intro hmem
    simp only [componentTagSpecs, List.mem_filterMap, Option.map_eq_some'] at hmem
    obtain ⟨a, ha1, ha2⟩ := hmem
    obtain ⟨e0, he1, he2⟩ := ha1
    obtain ⟨entry, hin, h1⟩ := he1
    obtain ⟨c0, hparse, hpair⟩ := he2
    obtain ⟨t0, hts, hfst⟩ := ha2
    subst hpair
    injection hfst with hfc hft
    subst hfc
    subst hft
    rw [exceptOk_eq_some] at hts
    rcases entry with msg | et
    · simp at h1
    · rcases et with n | n
      · simp only [Option.some.injEq] at h1
        subst h1
        exact ⟨n, hin, hparse, hts⟩
      · simp at h1
  · rintro ⟨e, hin, hparse, hts⟩
    simp only [componentTagSpecs, List.mem_filterMap, Option.map_eq_some']
    exact ⟨(c, e), ⟨e, ⟨Except.ok (EntryType.tag e), hin, rfl⟩, c, hparse, rfl⟩,
      t, (exceptOk_eq_some _ _).mpr hts, rfl⟩

/-- C7: `lookup_package` lists the tag folder
`spk/pkg/<name>/<version>/<build>`; when at least one listed tag entry
parses as a component name with a valid tag spec it returns
`WithComponents` mapping exactly those components to their tag specs;
otherwise, when the scalar tag at the same path resolves it returns
`WithoutComponents` with that tag spec, and when it does not it fails with
`PackageNotFound`. -/
theorem lookupPackage_classification
    (lsT : List String → List (Except String EntryType))
    (tagSpecParse : List String → Except SpfsError TagSpec)
    (resolveTag : TagSpec → Except Error Tag) (valid : String → Bool)
    (pkg : BuildIdent) :
    (∀ cmpts, lookupPackage lsT tagSpecParse resolveTag valid pkg
        = .ok (.withComponents cmpts) →
      ∀ c t, ((c, t) ∈ cmpts
        ↔ ∃ e, Except.ok (EntryType.tag e) ∈ lsT (buildPackageTagB pkg)
            ∧ Component.parse valid e = some c
            ∧ tagSpecParse (buildPackageTagB pkg ++ [e]) = .ok t))
    ∧ ((∃ e c t, Except.ok (EntryType.tag e) ∈ lsT (buildPackageTagB pkg)
          ∧ Component.parse valid e = some c
          ∧ tagSpecParse (buildPackageTagB pkg ++ [e]) = .ok t) →
        ∃ cmpts, lookupPackage lsT tagSpecParse resolveTag valid pkg
          = .ok (.withComponents cmpts))
    ∧ (¬ (∃ e c t, Except.ok (EntryType.tag e) ∈ lsT (buildPackageTagB pkg)
          ∧ Component.parse valid e = some c
          ∧ tagSpecParse (buildPackageTagB pkg ++ [e]) = .ok t) →
        ∀ ts, tagSpecParse (buildPackageTagB pkg) = .ok ts →
        (exceptIsOk (resolveTag ts) = true →
          lookupPackage lsT tagSpecParse resolveTag valid pkg
            = .ok (.withoutComponents ts))
        ∧ (exceptIsOk (resolveTag ts) = false →
          lookupPackage lsT tagSpecParse resolveTag valid pkg
            = .error (.packageNotFound pkg.toAny))) := by
  refine ⟨fun cmpts h c t => ?_, fun hex => ?_, fun hnone ts hts => ⟨fun hres => ?_, fun hres => ?_⟩⟩
  · by_cases hL : (componentTagSpecs lsT tagSpecParse valid (buildPackageTagB pkg)).isEmpty
    · exfalso
      revert h
      unfold lookupPackage
      simp only [hL, if_true]
      rcases tagSpecParse (buildPackageTagB pkg) with msg | ts
      · simp
      · by_cases hres : exceptIsOk (resolveTag ts) = true <;> simp [hres]
    · unfold lookupPackage at h
      simp only [hL, if_false] at h
      have : componentTagSpecs lsT tagSpecParse valid (buildPackageTagB pkg) = cmpts := by
        injection h with h2
        injection h2
      rw [← this]
      exact mem_componentTagSpecs lsT tagSpecParse valid (buildPackageTagB pkg) c t
  · rcases hex with ⟨e, c, t, hin, hparse, hts⟩
    have hmem : (c, t) ∈ componentTagSpecs lsT tagSpecParse valid (buildPackageTagB pkg) :=
      (mem_componentTagSpecs lsT tagSpecParse valid (buildPackageTagB pkg) c t).mpr
        ⟨e, hin, hparse, hts⟩
    have hL : (componentTagSpecs lsT tagSpecParse valid (buildPackageTagB pkg)).isEmpty = false := by
      rcases hLs : componentTagSpecs lsT tagSpecParse valid (buildPackageTagB pkg) with _ | ⟨p, rest⟩
      · rw [hLs] at hmem
        simp at hmem
      · rfl
    refine ⟨componentTagSpecs lsT tagSpecParse valid (buildPackageTagB pkg), ?_⟩
    unfold lookupPackage
    simp [hL]
  · have hL : (componentTagSpecs lsT tagSpecParse valid (buildPackageTagB pkg)).isEmpty = true := by
      rcases hLs : componentTagSpecs lsT tagSpecParse valid (buildPackageTagB pkg) with _ | ⟨⟨c, t⟩, rest⟩
      · rfl
      · exfalso
        refine hnone ?_
        have hmem : (c, t) ∈ componentTagSpecs lsT tagSpecParse valid (buildPackageTagB pkg) := by
          rw [hLs]
          exact List.mem_cons_self _ _
        rcases (mem_componentTagSpecs lsT tagSpecParse valid (buildPackageTagB pkg) c t).mp hmem
          with ⟨e, hin, hparse, hts⟩
        exact ⟨e, c, t, hin, hparse, hts⟩
    unfold lookupPackage
    simp [hL, hts, hres]
  · have hL : (componentTagSpecs lsT tagSpecParse valid (buildPackageTagB pkg)).isEmpty = true := by
      rcases hLs : componentTagSpecs lsT tagSpecParse valid (buildPackageTagB pkg) with _ | ⟨⟨c, t⟩, rest⟩
      · rfl
      · exfalso
        refine hnone ?_
        have hmem : (c, t) ∈ componentTagSpecs lsT tagSpecParse valid (buildPackageTagB pkg) := by
          rw [hLs]
          exact List.mem_cons_self _ _
        rcases (mem_componentTagSpecs lsT tagSpecParse valid (buildPackageTagB pkg) c t).mp hmem
          with ⟨e, hin, hparse, hts⟩
        exact ⟨e, c, t, hin, hparse, hts⟩
    unfold lookupPackage
    simp [hL, hts, hres]

/-- Witness for C7: the theorem applied to a folder with one `run` entry
(components case), to an empty folder with a resolving scalar tag
(legacy case), and to an empty folder with no scalar tag (not-found
case). -/
theorem lookupPackage_classification_witness :
    ((Component.run, TagSpec.mk ["spk", "pkg", "a", "1.0.0", "B", "run"])
        ∈ [(Component.run, TagSpec.mk ["spk", "pkg", "a", "1.0.0", "B", "run"])]
      ↔ ∃ e, Except.ok (EntryType.tag e)
            ∈ sampleLsTags [Except.ok (EntryType.tag "run")] (buildPackageTagB sampleBuild)
          ∧ Component.parse alwaysValid e = some Component.run
          ∧ sampleTagSpecParse (buildPackageTagB sampleBuild ++ [e])
              = .ok (TagSpec.mk ["spk", "pkg", "a", "1.0.0", "B", "run"]))
    ∧ (∃ cmpts, lookupPackage (sampleLsTags [Except.ok (EntryType.tag "run")])
        sampleTagSpecParse sampleResolveMissing alwaysValid sampleBuild
          = .ok (.withComponents cmpts))
    ∧ lookupPackage (sampleLsTags []) sampleTagSpecParse sampleResolveOk
        alwaysValid sampleBuild
        = .ok (.withoutComponents (TagSpec.mk ["spk", "pkg", "a", "1.0.0", "B"]))
    ∧ lookupPackage (sampleLsTags []) sampleTagSpecParse sampleResolveMissing
        alwaysValid sampleBuild
        = .error (.packageNotFound sampleBuild.toAny) := by
  refine ⟨?_, ?_, ?_, ?_⟩
  · exact (lookupPackage_classification (sampleLsTags [Except.ok (EntryType.tag "run")])
      sampleTagSpecParse sampleResolveMissing alwaysValid sampleBuild).1
      [(Component.run, TagSpec.mk ["spk", "pkg", "a", "1.0.0", "B", "run"])]
      (by decide) Component.run (TagSpec.mk ["spk", "pkg", "a", "1.0.0", "B", "run"])
  · exact (lookupPackage_classification _ _ _ _ _).2.1
      ⟨"run", Component.run, TagSpec.mk ["spk", "pkg", "a", "1.0.0", "B", "run"],
        by decide, by decide, by decide⟩
  · exact ((lookupPackage_classification _ _ _ _ _).2.2
      (by simp [sampleLsTags]) (TagSpec.mk ["spk", "pkg", "a", "1.0.0", "B"])
      (by decide)).1 (by decide)
  · exact ((lookupPackage_classification _ _ _ _ _).2.2
      (by simp [sampleLsTags]) (TagSpec.mk ["spk", "pkg", "a", "1.0.0", "B"])
      (by decide)).2 (by decide)

/-- C4 counterexample: `ls_tags` caches only the successful entries of a
fresh result, so when the fresh listing contains a per-entry error, an
immediately repeated `CacheOk` read of the same key does not return the
prior value (the error entry is gone), and the value inserted into the
cache is not the freshly computed result. -/
theorem lsTags_repeat_read_counterexample :
    (lsTagsCached .cacheOk
        (lsTagsCached .cacheOk [] ["spk", "spec"] [Except.error "io failure"]).2.1
        ["spk", "spec"] [Except.error "io failure"]).1
      ≠ (lsTagsCached .cacheOk [] ["spk", "spec"] [Except.error "io failure"]).1
    ∧ (lsTagsCached .cacheOk [] ["spk", "spec"] [Except.error "io failure"]).2.1
        = [(["spk", "spec"], [])] := by
  constructor <;> decide

/-- Helper: a `CacheOk` read with the key present returns the cached
value without computing. -/
theorem cachedRead_hit [DecidableEq κ] (display : Error → String)
    (cache : List (κ × CacheValue ν)) (key : κ) (compute : Except Error ν)
    (v : CacheValue ν) (h : alistFind cache key = some v) :
    cachedRead display .cacheOk cache key compute = (v.toResult, cache, false) := by
  simp [cachedRead, CachePolicy.cachedResultPermitted, h]

/-- Helper: a `CacheOk` read with the key absent computes and inserts. -/
theorem cachedRead_miss [DecidableEq κ] (display : Error → String)
    (cache : List (κ × CacheValue ν)) (key : κ) (compute : Except Error ν)
    (h : alistFind cache key = none) :
    cachedRead display .cacheOk cache key compute
      = (compute, alistInsert cache key (CacheValue.ofResult display compute), true) := by
  simp [cachedRead, CachePolicy.cachedResultPermitted, h]

/-- Helper: a `BypassCache` read always computes and inserts. -/
theorem cachedRead_bypass [DecidableEq κ] (display : Error → String)
    (cache : List (κ × CacheValue ν)) (key : κ) (compute : Except Error ν) :
    cachedRead display .bypassCache cache key compute
      = (compute, alistInsert cache key (CacheValue.ofResult display compute), true) := by
  simp [cachedRead, CachePolicy.cachedResultPermitted]

/-- Helper: finding the key just inserted returns the inserted value. -/
theorem alistFind_insert [DecidableEq κ] (c : List (κ × α)) (k : κ) (v : α) :
    alistFind (alistInsert c k v) k = some v := by
  simp [alistFind, alistInsert]

/-- Helper: the cache conversion of a success converts back to it. -/
theorem toResult_ofResult_ok (display : Error → String) (v : ν) :
    (CacheValue.ofResult display (Except.ok v)).toResult = .ok v :=
  rfl

/-- Helper: a cache value converting to a success is that success. -/
theorem toResult_eq_ok (w : CacheValue ν) (v : ν) (h : w.toResult = .ok v) :
    w = .success v := by
  cases w <;> simp [CacheValue.toResult] at h
  rw [h]

/-- Helper: `CacheOk` `ls_tags` read with the key present. -/
theorem lsTagsCached_hit (cache : List (List String × List EntryType))
    (path : List String) (compute : List (Except String EntryType))
    (v : List EntryType) (h : alistFind cache path = some v) :
    lsTagsCached .cacheOk cache path compute = (v.map Except.ok, cache, false) := by
  simp [lsTagsCached, CachePolicy.cachedResultPermitted, h]

/-- Helper: `CacheOk` `ls_tags` read with the key absent. -/
theorem lsTagsCached_miss (cache : List (List String × List EntryType))
    (path : List String) (compute : List (Except String EntryType))
    (h : alistFind cache path = none) :
    lsTagsCached .cacheOk cache path compute
      = (compute, alistInsert cache path (compute.filterMap entryOk), true) := by
  simp [lsTagsCached, CachePolicy.cachedResultPermitted, h]

/-- Helper: `BypassCache` `ls_tags` read always computes and inserts. -/
theorem lsTagsCached_bypass (cache : List (List String × List EntryType))
    (path : List String) (compute : List (Except String EntryType)) :
    lsTagsCached .bypassCache cache path compute
      = (compute, alistInsert cache path (compute.filterMap entryOk), true) := by
  simp [lsTagsCached, CachePolicy.cachedResultPermitted]

/-- Helper: re-wrapping cached entries in `Ok` and filtering the
successes back out is the identity. -/
theorem filterMap_entryOk_map_ok (v : List EntryType) :
    (v.map Except.ok).filterMap entryOk = v := by
  rw [List.filterMap_map]
  have h : (entryOk ∘ Except.ok : EntryType → Option EntryType) = some := by
    funext a
    rfl
  rw [h, List.filterMap_some]

/-- C4 amended: reads through the `CacheValue`-backed caches
(`read_package_from_storage`, `read_recipe`, `read_embed_stub`,
`list_package_versions`, `list_build_components`, `resolve_tag`, all of
the `cachedRead` shape) return the cached value or error on a `CacheOk`
hit without consulting the CAS, always consult the CAS under
`BypassCache` (so an out-of-band mutation is reflected), insert the
freshly computed result on every miss, and an immediately repeated
`CacheOk` read returns the prior success value.  For `ls_tags` the same
holds except that only the successful entries of a fresh result are
cached, so a repeated `CacheOk` read returns the successful entries of
the prior result. -/
theorem cached_read_policy (κ ν : Type) [DecidableEq κ] (display : Error → String) :
    (∀ (cache : List (κ × CacheValue ν)) key compute v,
        alistFind cache key = some v →
        cachedRead display .cacheOk cache key compute = (v.toResult, cache, false))
    ∧ (∀ (cache : List (κ × CacheValue ν)) key compute,
        alistFind cache key = none →
        cachedRead display .cacheOk cache key compute
          = (compute, alistInsert cache key (CacheValue.ofResult display compute), true))
    ∧ (∀ (cache : List (κ × CacheValue ν)) key compute,
        cachedRead display .bypassCache cache key compute
          = (compute, alistInsert cache key (CacheValue.ofResult display compute), true))
    ∧ (∀ (policy : CachePolicy) (cache : List (κ × CacheValue ν)) key compute1 compute2 v,
        (cachedRead display policy cache key compute1).1 = .ok v →
        (cachedRead display .cacheOk (cachedRead display policy cache key compute1).2.1
            key compute2).1 = .ok v)
    ∧ (∀ (cache : List (List String × List EntryType)) path compute v,
        alistFind cache path = some v →
        lsTagsCached .cacheOk cache path compute = (v.map Except.ok, cache, false))
    ∧ (∀ (cache : List (List String × List EntryType)) path compute,
        alistFind cache path = none →
        lsTagsCached .cacheOk cache path compute
          = (compute, alistInsert cache path (compute.filterMap entryOk), true))
    ∧ (∀ (cache : List (List String × List EntryType)) path compute,
        lsTagsCached .bypassCache cache path compute
          = (compute, alistInsert cache path (compute.filterMap entryOk), true))
    ∧ (∀ (policy : CachePolicy) (cache : List (List String × List EntryType)) path
          compute1 compute2,
        (lsTagsCached .cacheOk (lsTagsCached policy cache path compute1).2.1
            path compute2).1
          = ((lsTagsCached policy cache path compute1).1.filterMap entryOk).map
              Except.ok) := by
  refine ⟨?_, ?_, ?_, ?_, ?_, ?_, ?_, ?_⟩
  · exact fun cache key compute v h => cachedRead_hit display cache key compute v h
  · exact fun cache key compute h => cachedRead_miss display cache key compute h
  · exact fun cache key compute => cachedRead_bypass display cache key compute
  · intro policy cache key compute1 compute2 v h1
    rcases policy with _ | _
    · rcases hf : alistFind cache key with _ | w
      · rw [cachedRead_miss display cache key compute1 hf] at h1 ⊢
        subst h1
        rw [cachedRead_hit display _ key compute2 _ (alistFind_insert cache key _)]
        exact toResult_ofResult_ok display v
      · rw [cachedRead_hit display cache key compute1 w hf] at h1 ⊢
        rw [cachedRead_hit display cache key compute2 w hf]
        exact h1
    · rw [cachedRead_bypass display cache key compute1] at h1 ⊢
      subst h1
      rw [cachedRead_hit display _ key compute2 _ (alistFind_insert cache key _)]
      exact toResult_ofResult_ok display v
  · exact fun cache path compute v h => lsTagsCached_hit cache path compute v h
  · exact fun cache path compute h => lsTagsCached_miss cache path compute h
  · exact fun cache path compute => lsTagsCached_bypass cache path compute
  · intro policy cache path compute1 compute2
    rcases policy with _ | _
    · rcases hf : alistFind cache path with _ | w
      · rw [lsTagsCached_miss cache path compute1 hf]
        rw [lsTagsCached_hit _ path compute2 _ (alistFind_insert cache path _)]
      · rw [lsTagsCached_hit cache path compute1 w hf]
        rw [lsTagsCached_hit cache path compute2 w hf]
        rw [filterMap_entryOk_map_ok]
    · rw [lsTagsCached_bypass cache path compute1]
      rw [lsTagsCached_hit _ path compute2 _ (alistFind_insert cache path _)]

/-- Witness for C4 (amended): the theorem applied to concrete caches: a
hit returns the cached value without computing, a miss computes and
inserts, a repeated `CacheOk` read after a `BypassCache` read returns the
prior success value, and the `ls_tags` hit and miss behave likewise. -/
theorem cached_read_policy_witness :
    cachedRead (fun _ => "") .cacheOk [(1, CacheValue.success 7)] 1
        (Except.error (Error.stringError "x"))
      = (.ok 7, [(1, CacheValue.success 7)], false)
    ∧ cachedRead (fun _ => "") .cacheOk ([] : List (Nat × CacheValue Nat)) 1 (.ok 7)
      = (.ok 7, [(1, CacheValue.success 7)], true)
    ∧ (cachedRead (fun _ => "") .cacheOk
        (cachedRead (fun _ => "") .bypassCache ([] : List (Nat × CacheValue Nat)) 1
          (.ok 7)).2.1 1 (.ok 9)).1 = .ok 7
    ∧ lsTagsCached .cacheOk [(["p"], [EntryType.tag "t"])] ["p"] []
      = ([Except.ok (EntryType.tag "t")], [(["p"], [EntryType.tag "t"])], false)
    ∧ lsTagsCached .cacheOk [] ["p"] [Except.ok (EntryType.tag "t")]
      = ([Except.ok (EntryType.tag "t")], [(["p"], [EntryType.tag "t"])], true) := by
  refine ⟨?_, ?_, ?_, ?_, ?_⟩
  · exact (cached_read_policy Nat Nat (fun _ => "")).1 _ 1 _ (CacheValue.success 7) rfl
  · exact (cached_read_policy Nat Nat (fun _ => "")).2.1 [] 1 (.ok 7) rfl
  · exact (cached_read_policy Nat Nat (fun _ => "")).2.2.2.1 .bypassCache [] 1
      (.ok 7) (.ok 9) 7 rfl
  · exact (cached_read_policy Nat Nat (fun _ => "")).2.2.2.2.1 _ ["p"] []
      [EntryType.tag "t"] rfl
  · exact (cached_read_policy Nat Nat (fun _ => "")).2.2.2.2.2.1 [] ["p"]
      [Except.ok (EntryType.tag "t")] rfl

/-- Helper: closed form of the removal combination fold: the first
non-`PackageNotFound` error wins; otherwise any deletion wins; otherwise
the first error; otherwise nothing was deleted. -/
theorem combineRemoveResults_eq (g1 g2 g3 : Except Error Bool) :
    combineRemoveResults g1 g2 g3 =
      match firstErrorWhere (fun e => ! e.isPackageNotFound) [g1, g2, g3] with
      | some e => .error e
      | none =>
        if g1 = .ok true ∨ g2 = .ok true ∨ g3 = .ok true then .ok true
        else
          match firstErrorWhere (fun _ => true) [g1, g2, g3] with
          | some e => .error e
          | none => .ok false := by
  rcases g1 with e1 | b1 <;> rcases g2 with e2 | b2 <;> rcases g3 with e3 | b3
  all_goals try cases b1
  all_goals try cases b2
  all_goals try cases b3
  all_goals try cases hp1 : e1.isPackageNotFound
  all_goals try cases hp2 : e2.isPackageNotFound
  all_goals try cases hp3 : e3.isPackageNotFound
  all_goals simp_all [combineRemoveResults, combineStep, firstErrorWhere]

/-- Helper: if no error in the list satisfies `p`, there is no first
error satisfying `p`. -/
theorem firstErrorWhere_eq_none (p : Error → Bool) (l : List (Except Error Bool))
    (h : ∀ e, Except.error e ∈ l → p e = false) :
    firstErrorWhere p l = none := by
  induction l with
  | nil => rfl
  | cons x rest ih =>
    rcases x with e | b
    · have hp := h e (List.mem_cons_self _ _)
      simp only [firstErrorWhere, hp]
      simp
      exact ih fun e2 he2 => h e2 (List.mem_cons_of_mem _ he2)
    · exact ih fun e2 he2 => h e2 (List.mem_cons_of_mem _ he2)

/-- Helper: if some error in the list satisfies `p`, the first such error
exists, satisfies `p`, and is in the list. -/
theorem firstErrorWhere_eq_some (p : Error → Bool) (l : List (Except Error Bool))
    (e : Error) (hin : Except.error e ∈ l) (hp : p e = true) :
    ∃ e2, firstErrorWhere p l = some e2 ∧ p e2 = true ∧ Except.error e2 ∈ l := by
  induction l with
  | nil => simp at hin
  | cons x rest ih =>
    rcases x with e1 | b
    · by_cases hp1 : p e1 = true
      · exact ⟨e1, by simp [firstErrorWhere, hp1], hp1, List.mem_cons_self _ _⟩
      · have hp1f : p e1 = false := by
          revert hp1
          cases p e1 <;> simp
        have hne : (Except.error e : Except Error Bool) ≠ Except.error e1 := by
          intro hcontra
          injection hcontra with h2
          rw [h2] at hp
          rw [hp] at hp1f
          cases hp1f
        have hin2 : Except.error e ∈ rest := by
          rcases List.mem_cons.mp hin with h2 | h2
          · exact absurd h2 hne
          · exact h2
        rcases ih hin2 with ⟨e2, hfe, hpe, hmem⟩
        exact ⟨e2, by simp [firstErrorWhere, hp1f, hfe], hpe, List.mem_cons_of_mem _ hmem⟩
    · have hin2 : Except.error e ∈ rest := by
        rcases List.mem_cons.mp hin with h2 | h2
        · cases h2
        · exact h2
      rcases ih hin2 with ⟨e2, hfe, hpe, hmem⟩
      exact ⟨e2, by simp [firstErrorWhere, hfe], hpe, List.mem_cons_of_mem _ hmem⟩

/-- Helper: the first error satisfying `p` is in the list and satisfies
`p`. -/
theorem firstErrorWhere_mem (p : Error → Bool) (l : List (Except Error Bool))
    (e : Error) (h : firstErrorWhere p l = some e) :
    Except.error e ∈ l ∧ p e = true := by
  induction l with
  | nil => cases h
  | cons x rest ih =>
    rcases x with e1 | b
    · by_cases hp1 : p e1 = true
      · simp only [firstErrorWhere, hp1, if_true] at h
        injection h with h2
        subst h2
        exact ⟨List.mem_cons_self _ _, hp1⟩
      · have hp1f : p e1 = false := by
          revert hp1
          cases p e1 <;> simp
        simp only [firstErrorWhere, hp1f] at h
        simp only [Bool.false_eq_true, if_false] at h
        rcases ih h with ⟨hmem, hpe⟩
        exact ⟨List.mem_cons_of_mem _ hmem, hpe⟩
    · simp only [firstErrorWhere] at h
      rcases ih h with ⟨hmem, hpe⟩
      exact ⟨List.mem_cons_of_mem _ hmem, hpe⟩

/-- Helper: `lookup_package` fails only with `PackageNotFound` for the
requested identifier or with a propagated spfs error. -/
theorem lookupPackage_error_shape
    (lsT : List String → List (Except String EntryType))
    (tagSpecParse : List String → Except SpfsError TagSpec)
    (resolveTag : TagSpec → Except Error Tag) (valid : String → Bool)
    (pkg : BuildIdent) (e : Error)
    (h : lookupPackage lsT tagSpecParse resolveTag valid pkg = .error e) :
    e = .packageNotFound pkg.toAny ∨ ∃ s, e = .spfsError s := by
  revert h
  unfold lookupPackage
  by_cases hL : (componentTagSpecs lsT tagSpecParse valid (buildPackageTagB pkg)).isEmpty
  · simp only [hL, if_true]
    rcases tagSpecParse (buildPackageTagB pkg) with s | ts
    · intro h
      injection h with h2
      exact Or.inr ⟨s, h2.symm⟩
    · by_cases hres : exceptIsOk (resolveTag ts) = true
      · simp [hres]
      · simp only [Bool.not_eq_true] at hres
        simp only [hres, Bool.false_eq_true, if_false]
        intro h
        injection h with h2
        exact Or.inl h2.symm
  · simp [hL]

/-- Helper: the removal loop over component tags fails only with
propagated spfs errors. -/
theorem removeTagsLoop_error_shape (removeTag : TagSpec → Except SpfsError Unit)
    (tags : List TagSpec) (acc : Bool) (e : Error)
    (h : removeTagsLoop removeTag tags acc = .error e) :
    ∃ s, e = .spfsError s := by
  induction tags generalizing acc with
  | nil => cases h
  | cons t rest ih =>
    revert h
    simp only [removeTagsLoop]
    rcases removeTag t with s | u
    · rcases s with msg | msg
      · exact fun h => ih _ h
      · intro h
        injection h with h2
        exact ⟨.other msg, h2.symm⟩
    · exact fun h => ih _ h

/-- Helper: a `PackageNotFound` from the component-tags deletion group
names the requested identifier. -/
theorem componentTagsGroup_pnf
    (lsT : List String → List (Except String EntryType))
    (tagSpecParse : List String → Except SpfsError TagSpec)
    (resolveTag : TagSpec → Except Error Tag) (valid : String → Bool)
    (removeTag : TagSpec → Except SpfsError Unit) (pkg : BuildIdent) (e : Error)
    (h : componentTagsGroup lsT tagSpecParse resolveTag valid removeTag pkg = .error e)
    (hp : e.isPackageNotFound = true) :
    e = .packageNotFound pkg.toAny := by
  revert h
  unfold componentTagsGroup
  rcases hl : lookupPackage lsT tagSpecParse resolveTag valid pkg with e1 | stored
  · intro h
    injection h with h2
    rcases lookupPackage_error_shape lsT tagSpecParse resolveTag valid pkg e1 hl
      with h3 | ⟨s, h3⟩
    · rw [← h2]
      exact h3
    · rw [← h2] at hp
      rw [h3] at hp
      exact absurd hp (by simp [Error.isPackageNotFound])
  · intro h
    rcases removeTagsLoop_error_shape removeTag stored.tags false e h with ⟨s, h3⟩
    rw [h3] at hp
    exact absurd hp (by simp [Error.isPackageNotFound])

/-- Helper: a `PackageNotFound` from the spec-tag deletion group names
the requested identifier. -/
theorem buildRecipeTagsGroup_pnf (removeTag : TagSpec → Except SpfsError Unit)
    (pkg : BuildIdent) (e : Error)
    (h : buildRecipeTagsGroup removeTag pkg = .error e)
    (hp : e.isPackageNotFound = true) :
    e = .packageNotFound pkg.toAny := by
  revert h
  unfold buildRecipeTagsGroup
  rcases removeTag (TagSpec.mk (buildSpecTagB pkg)) with s | u
  · rcases s with msg | msg
    · intro h
      injection h with h2
      exact h2.symm
    · intro h
      injection h with h2
      rw [← h2] at hp
      exact absurd hp (by simp [Error.isPackageNotFound, Error.ofSpfs])
  · intro h
    cases h

/-- Helper: the legacy-tag deletion group never fails with
`PackageNotFound`. -/
theorem legacyTagsGroup_pnf (removeTag : TagSpec → Except SpfsError Unit)
    (pkg : BuildIdent) (e : Error)
    (h : legacyTagsGroup removeTag pkg = .error e)
    (hp : e.isPackageNotFound = true) :
    e = .packageNotFound pkg.toAny := by
  revert h
  unfold legacyTagsGroup
  rcases removeTag (TagSpec.mk (buildPackageTagB pkg)) with s | u
  · rcases s with msg | msg
    · intro h
      cases h
    · intro h
      injection h with h2
      rw [← h2] at hp
      exact absurd hp (by simp [Error.isPackageNotFound, Error.ofSpfs])
  · intro h
    cases h

/-- Helper: the three combination rules of the removal fold, over
arbitrary group results. -/
theorem combineRemoveResults_rules (g1 g2 g3 : Except Error Bool) :
    (Except.ok true ∈ [g1, g2, g3] →
      (∀ e, Except.error e ∈ [g1, g2, g3] → e.isPackageNotFound = true) →
      combineRemoveResults g1 g2 g3 = .ok true)
    ∧ (∀ e, Except.error e ∈ [g1, g2, g3] → e.isPackageNotFound = false →
        ∃ e2, combineRemoveResults g1 g2 g3 = .error e2 ∧ e2.isPackageNotFound = false
          ∧ Except.error e2 ∈ [g1, g2, g3])
    ∧ (Except.ok true ∉ [g1, g2, g3] →
      (∀ e, Except.error e ∈ [g1, g2, g3] → e.isPackageNotFound = true) →
      combineRemoveResults g1 g2 g3 = .ok false
      ∨ ∃ e2, combineRemoveResults g1 g2 g3 = .error e2 ∧ e2.isPackageNotFound = true
          ∧ Except.error e2 ∈ [g1, g2, g3]) := by
  have hchar := combineRemoveResults_eq g1 g2 g3
  refine ⟨fun hok hpnf => ?_, fun e he hef => ?_, fun hnotok hpnf => ?_⟩
  · have hnone : firstErrorWhere (fun e => ! e.isPackageNotFound) [g1, g2, g3] = none := by
      refine firstErrorWhere_eq_none _ _ fun e he => ?_
      have := hpnf e he
      simp [this]
    have hoktrue : g1 = .ok true ∨ g2 = .ok true ∨ g3 = .ok true := by
      simp only [List.mem_cons, List.not_mem_nil, or_false] at hok
      exact hok.imp Eq.symm (Or.imp Eq.symm Eq.symm)
    rw [hchar, hnone]
    simp [hoktrue]
  · obtain ⟨e2, hfe, hpe2, hmem⟩ :=
      firstErrorWhere_eq_some (fun e => ! e.isPackageNotFound) [g1, g2, g3] e he
        (by simp [hef])
    refine ⟨e2, ?_, ?_, hmem⟩
    · rw [hchar, hfe]
    · simpa using hpe2
  · have hnone : firstErrorWhere (fun e => ! e.isPackageNotFound) [g1, g2, g3] = none := by
      refine firstErrorWhere_eq_none _ _ fun e he => ?_
      have := hpnf e he
      simp [this]
    have hcond : ¬ (g1 = .ok true ∨ g2 = .ok true ∨ g3 = .ok true) := by
      intro hcontra
      refine hnotok ?_
      simp only [List.mem_cons, List.not_mem_nil, or_false]
      exact hcontra.imp Eq.symm (Or.imp Eq.symm Eq.symm)
    rcases hfe : firstErrorWhere (fun _ => true) [g1, g2, g3] with _ | e2
    · left
      rw [hchar, hnone, hfe]
      simp [hcond]
    · right
      obtain ⟨hmem, _⟩ := firstErrorWhere_mem _ _ _ hfe
      refine ⟨e2, ?_, hpnf e2 hmem, hmem⟩
      rw [hchar, hnone, hfe]
      simp [hcond]

/-- C3: `remove_package_from_storage` invalidates the caches once and
combines its three deletion groups (component tags, legacy tag, spec tag)
by: at least one deletion with only `PackageNotFound` failures is
success; any failure other than `PackageNotFound` is returned; no
deletion with only `PackageNotFound` failures is `PackageNotFound` for
the requested identifier. -/
theorem removePackage_combination
    (lsT : List String → List (Except String EntryType))
    (tagSpecParse : List String → Except SpfsError TagSpec)
    (resolveTag : TagSpec → Except Error Tag) (valid : String → Bool)
    (removeTag : TagSpec → Except SpfsError Unit) (pkg : BuildIdent) (caches : Caches) :
    (removePackageFromStorage lsT tagSpecParse resolveTag valid removeTag pkg caches).2
      = invalidateCaches caches
    ∧ (Except.ok true ∈ [componentTagsGroup lsT tagSpecParse resolveTag valid removeTag pkg,
          buildRecipeTagsGroup removeTag pkg, legacyTagsGroup removeTag pkg] →
       (∀ e, Except.error e
            ∈ [componentTagsGroup lsT tagSpecParse resolveTag valid removeTag pkg,
               buildRecipeTagsGroup removeTag pkg, legacyTagsGroup removeTag pkg] →
          e.isPackageNotFound = true) →
       (removePackageFromStorage lsT tagSpecParse resolveTag valid removeTag pkg caches).1
         = .ok ())
    ∧ (∀ e, Except.error e
          ∈ [componentTagsGroup lsT tagSpecParse resolveTag valid removeTag pkg,
             buildRecipeTagsGroup removeTag pkg, legacyTagsGroup removeTag pkg] →
        e.isPackageNotFound = false →
        ∃ e2, (removePackageFromStorage lsT tagSpecParse resolveTag valid removeTag
            pkg caches).1 = .error e2
          ∧ e2.isPackageNotFound = false
          ∧ Except.error e2
              ∈ [componentTagsGroup lsT tagSpecParse resolveTag valid removeTag pkg,
                 buildRecipeTagsGroup removeTag pkg, legacyTagsGroup removeTag pkg])
    ∧ (Except.ok true ∉ [componentTagsGroup lsT tagSpecParse resolveTag valid removeTag pkg,
          buildRecipeTagsGroup removeTag pkg, legacyTagsGroup removeTag pkg] →
       (∀ e, Except.error e
            ∈ [componentTagsGroup lsT tagSpecParse resolveTag valid removeTag pkg,
               buildRecipeTagsGroup removeTag pkg, legacyTagsGroup removeTag pkg] →
          e.isPackageNotFound = true) →
       (removePackageFromStorage lsT tagSpecParse resolveTag valid removeTag pkg caches).1
         = .error (.packageNotFound pkg.toAny)) := by
  have hrules := combineRemoveResults_rules
    (componentTagsGroup lsT tagSpecParse resolveTag valid removeTag pkg)
    (buildRecipeTagsGroup removeTag pkg) (legacyTagsGroup removeTag pkg)
  have hr1 : (removePackageFromStorage lsT tagSpecParse resolveTag valid removeTag
      pkg caches).1
      = match combineRemoveResults
          (componentTagsGroup lsT tagSpecParse resolveTag valid removeTag pkg)
          (buildRecipeTagsGroup removeTag pkg) (legacyTagsGroup removeTag pkg) with
        | .error err => .error err
        | .ok true => .ok ()
        | .ok false => .error (.packageNotFound pkg.toAny) := rfl
  refine ⟨rfl, fun hok hpnf => ?_, fun e he hef => ?_, fun hnotok hpnf => ?_⟩
  · rw [hr1, hrules.1 hok hpnf]
  · obtain ⟨e2, hcomb, hpe2, hmem⟩ := hrules.2.1 e he hef
    exact ⟨e2, by rw [hr1, hcomb], hpe2, hmem⟩
  · rcases hrules.2.2 hnotok hpnf with hcomb | ⟨e2, hcomb, hpe2, hmem⟩
    · rw [hr1, hcomb]
    · have he2 : e2 = .packageNotFound pkg.toAny := by
        simp only [List.mem_cons, List.not_mem_nil, or_false] at hmem
        rcases hmem with hg | hg | hg
        · exact componentTagsGroup_pnf lsT tagSpecParse resolveTag valid removeTag pkg e2
            hg.symm hpe2
        · exact buildRecipeTagsGroup_pnf removeTag pkg e2 hg.symm hpe2
        · exact legacyTagsGroup_pnf removeTag pkg e2 hg.symm hpe2
      rw [hr1, hcomb, he2]

/-- Witness for C3: the theorem applied to a CAS where every removal
succeeds (success case), to one where the component removal hits a CAS
error (dominant-error case), and to one where nothing exists
(`PackageNotFound` case). -/
theorem removePackage_combination_witness :
    (removePackageFromStorage (sampleLsTags [Except.ok (EntryType.tag "run")])
        sampleTagSpecParse sampleResolveOk alwaysValid sampleRemoveOk
        sampleBuild emptyCaches).1 = .ok ()
    ∧ (∃ e2, (removePackageFromStorage (sampleLsTags []) sampleTagSpecParse
          sampleResolveOk alwaysValid sampleRemoveBroken sampleBuild emptyCaches).1
          = .error e2
        ∧ e2.isPackageNotFound = false
        ∧ Except.error e2
            ∈ [componentTagsGroup (sampleLsTags []) sampleTagSpecParse sampleResolveOk
                 alwaysValid sampleRemoveBroken sampleBuild,
               buildRecipeTagsGroup sampleRemoveBroken sampleBuild,
               legacyTagsGroup sampleRemoveBroken sampleBuild])
    ∧ (removePackageFromStorage (sampleLsTags []) sampleTagSpecParse
        sampleResolveMissing alwaysValid sampleRemoveUnknown sampleBuild
        emptyCaches).1 = .error (.packageNotFound sampleBuild.toAny) := by
  refine ⟨?_, ?_, ?_⟩
  · refine (removePackage_combination (sampleLsTags [Except.ok (EntryType.tag "run")])
      sampleTagSpecParse sampleResolveOk alwaysValid sampleRemoveOk sampleBuild
      emptyCaches).2.1 (by decide) ?_
    intro e he
    have h1 : componentTagsGroup (sampleLsTags [Except.ok (EntryType.tag "run")])
        sampleTagSpecParse sampleResolveOk alwaysValid sampleRemoveOk sampleBuild
        = .ok true := by decide
    have h2 : buildRecipeTagsGroup sampleRemoveOk sampleBuild = .ok true := by decide
    have h3 : legacyTagsGroup sampleRemoveOk sampleBuild = .ok true := by decide
    rw [h1, h2, h3] at he
    simp at he
  · exact (removePackage_combination (sampleLsTags []) sampleTagSpecParse
      sampleResolveOk alwaysValid sampleRemoveBroken sampleBuild emptyCaches).2.2.1
      (.spfsError (.other "disk")) (by decide) (by decide)
  · refine (removePackage_combination (sampleLsTags []) sampleTagSpecParse
      sampleResolveMissing alwaysValid sampleRemoveUnknown sampleBuild
      emptyCaches).2.2.2 (by decide) ?_
    intro e he
    have h1 : componentTagsGroup (sampleLsTags []) sampleTagSpecParse
        sampleResolveMissing alwaysValid sampleRemoveUnknown sampleBuild
        = .error (.packageNotFound sampleBuild.toAny) := by decide
    have h2 : buildRecipeTagsGroup sampleRemoveUnknown sampleBuild
        = .error (.packageNotFound sampleBuild.toAny) := by decide
    have h3 : legacyTagsGroup sampleRemoveUnknown sampleBuild = .ok false := by decide
    rw [h1, h2, h3] at he
    simp at he
    rw [he]
    decide

/-- Helper: membership in the probe part-lengths. -/
theorem mem_probeLengths (len n : Nat) :
    n ∈ probeLengths len ↔ (len < n ∧ 1 ≤ n ∧ n ≤ 5) ∨ n = len := by
  simp only [probeLengths, List.mem_append, List.mem_filter, List.mem_range'_1,
    List.mem_singleton, decide_eq_true_eq]
  omega

/-- Helper: taking `n` elements of a list padded with `n` zeros appends
exactly the missing zeros when the list is no longer than `n`. -/
theorem take_append_replicate (l : List Nat) (n : Nat) (h : l.length ≤ n) :
    (l ++ List.replicate n 0).take n = l ++ List.replicate (n - l.length) 0 := by
  rw [List.take_append_eq_append_take]
  rw [List.take_of_length_le h]
  rw [List.take_replicate]
  congr 1
  congr 1
  exact Nat.min_eq_left (Nat.sub_le _ _)

/-- Helper: membership in the collected entry names of
`get_concrete_package_builds`: folder names unconditionally, tag names
only without the `embedded[` prefix. -/
theorem mem_collectBuildNames (entries : List (Except String EntryType)) (name : String) :
    name ∈ collectBuildNames entries ↔
      Except.ok (EntryType.folder name) ∈ entries
      ∨ (Except.ok (EntryType.tag name) ∈ entries
          ∧ name.startsWith "embedded[" = false) := by
  simp only [collectBuildNames, List.mem_filterMap]
  constructor
  · rintro ⟨entry, hin, hf⟩
    rcases entry with msg | et
    · simp at hf
    · rcases et with n | n
      · by_cases hs : n.startsWith "embedded[" = true
        · simp [hs] at hf
        · have hs2 : n.startsWith "embedded[" = false := by
            revert hs
            cases n.startsWith "embedded[" <;> simp
          simp only [hs2, Bool.false_eq_true, if_false, Option.some.injEq] at hf
          subst hf
          exact Or.inr ⟨hin, hs2⟩
      · simp only [Option.some.injEq] at hf
        subst hf
        exact Or.inl hin
  · rintro (hin | ⟨hin, hs⟩)
    · exact ⟨Except.ok (EntryType.folder name), hin, rfl⟩
    · exact ⟨Except.ok (EntryType.tag name), hin, by simp [hs]⟩

/-- C1: the probed version variants of `get_concrete_package_builds` are
exactly the zero-paddings of the trailing-zero-normalized parts whose
part count lies in `{1,...,5}` or equals the normalized length (markers
preserved); a build is in the result exactly when some probed variant
yields it, each probe listing both the `spk/spec` and `spk/pkg` trees;
and the collected names are exactly every folder name plus every tag name
not starting with the `embedded[` prefix, each then parsed as a build
key. -/
theorem getConcretePackageBuilds_probe_spec
    (lsT : List String → List (Except String EntryType))
    (parseBuild : String → Option Build) (pkg : VersionIdent) :
    (∀ v : Version, v ∈ probedVersions pkg ↔
      ((∃ k, v.parts.parts = pkg.version.parts.normalize.parts ++ List.replicate k 0)
        ∧ ((1 ≤ v.parts.parts.length ∧ v.parts.parts.length ≤ 5)
            ∨ v.parts.parts.length = pkg.version.parts.normalize.parts.length)
        ∧ v.parts.plusEpsilon = pkg.version.parts.normalize.plusEpsilon
        ∧ v.pre = pkg.version.pre ∧ v.post = pkg.version.post))
    ∧ (∀ b : BuildIdent, b ∈ getConcretePackageBuilds lsT parseBuild pkg ↔
        ∃ v ∈ probedVersions pkg,
          b ∈ ((collectBuildNames (lsT (buildSpecTagV (pkg.withVersion v))
              ++ lsT (buildPackageTagV (pkg.withVersion v)))).filterMap parseBuild).map
            (pkg.withVersion v).toBuild)
    ∧ (∀ entries name, name ∈ collectBuildNames entries ↔
        Except.ok (EntryType.folder name) ∈ entries
        ∨ (Except.ok (EntryType.tag name) ∈ entries
            ∧ name.startsWith "embedded[" = false)) := by
  refine ⟨fun v => ?_, fun b => ?_, fun entries name => mem_collectBuildNames entries name⟩
  · constructor
    · intro hv
      simp only [probedVersions, List.mem_map] at hv
      obtain ⟨n, hn, hfv⟩ := hv
      rw [mem_probeLengths] at hn
      have hlen : pkg.version.parts.normalize.parts.length ≤ n := by
        rcases hn with ⟨h1, _⟩ | h
        · omega
        · omega
      subst hfv
      refine ⟨⟨n - pkg.version.parts.normalize.parts.length, ?_⟩, ?_, rfl, rfl, rfl⟩
      · exact take_append_replicate _ n hlen
      · rw [take_append_replicate _ n hlen]
        simp only [List.length_append, List.length_replicate]
        rcases hn with ⟨h1, h2, h3⟩ | h
        · left
          omega
        · right
          omega
    · rintro ⟨⟨k, hparts⟩, hlen, heps, hpre, hpost⟩
      obtain ⟨⟨vp, veps⟩, vpre, vpost⟩ := v
      simp only at hparts hlen heps hpre hpost
      have hvlen : vp.length = pkg.version.parts.normalize.parts.length + k := by
        rw [hparts]
        simp [List.length_append, List.length_replicate]
      simp only [probedVersions, List.mem_map]
      refine ⟨pkg.version.parts.normalize.parts.length + k, ?_, ?_⟩
      · rw [mem_probeLengths]
        rcases hlen with ⟨h1, h2⟩ | h
        · by_cases hk : k = 0
          · right
            omega
          · left
            omega
        · right
          omega
      · rw [take_append_replicate _ _ (Nat.le_add_right _ k)]
        rw [Nat.add_sub_cancel_left]
        rw [← hparts]
        rw [heps, hpre, hpost]
  · simp only [getConcretePackageBuilds, List.mem_flatMap]

end Spk
